import Mathlib

/-! Shallow embedding of the trace ingestion and performance-analysis engine of
the `logkit` repository: `src/systrace_analysis.py` (embedded-script variant)
and `src/trace_analysis.py` (structured-trace variant).

Machine floats of the Python source are modelled as rationals (ℚ); Python
division by zero (which in the source either raises `ZeroDivisionError` or
produces a non-finite numpy value, never a valid percentage) is modelled by a
checked division returning `Option ℚ` with `none` for a zero denominator.
-/

namespace Systrace

/-- A Python runtime value, as produced by `eval` on the extracted literal in
`parse_systrace_html`.  Only the shapes the analysis touches are modelled:
numbers, strings, `None`, lists and dicts with string keys. -/
inductive PyVal where
  | null
  | num (q : ℚ)
  | str (s : String)
  | list (xs : List PyVal)
  | dict (fields : List (String × PyVal))

/-- A Python expression, as the text captured by the regex
`var traceEvents = (\[.*?\]);` parses.  Literal constructs (`num`, `str`,
`null`, `arr`, `obj`) build values; `call` stands for any non-literal
construct (function call, attribute access, comprehension, ...), which
`eval` executes as code. -/
inductive PyExpr where
  | num (q : ℚ)
  | str (s : String)
  | null
  | arr (elems : List PyExpr)
  | obj (fields : List (String × PyExpr))
  | call (fn : String) (args : List PyExpr)

mutual

/-- Python `eval` on an expression: literals evaluate to themselves; a
`call` node executes the named code, whose result is supplied by the runtime
environment `env` (the free semantics of whatever code the literal invokes). -/
def pyEval (env : String → List PyVal → PyVal) : PyExpr → PyVal
  | .num q => .num q
  | .str s => .str s
  | .null => .null
  | .arr es => .list (pyEvalList env es)
  | .obj fs => .dict (pyEvalFields env fs)
  | .call f args => env f (pyEvalList env args)

def pyEvalList (env : String → List PyVal → PyVal) : List PyExpr → List PyVal
  | [] => []
  | e :: es => pyEval env e :: pyEvalList env es

def pyEvalFields (env : String → List PyVal → PyVal) :
    List (String × PyExpr) → List (String × PyVal)
  | [] => []
  | (k, e) :: fs => (k, pyEval env e) :: pyEvalFields env fs

end

mutual

/-- Whether evaluating the expression executes code beyond constructing a
literal value (i.e. whether it contains a non-literal construct). -/
def executesCode : PyExpr → Bool
  | .num _ => false
  | .str _ => false
  | .null => false
  | .arr es => executesCodeList es
  | .obj fs => executesCodeFields fs
  | .call _ _ => true

def executesCodeList : List PyExpr → Bool
  | [] => false
  | e :: es => executesCode e || executesCodeList es

def executesCodeFields : List (String × PyExpr) → Bool
  | [] => false
  | (_, e) :: fs => executesCode e || executesCodeFields fs

end

/-- Modelled from the spec: a "flat object" literal — a dict literal whose
values are scalar literals only. -/
def isFlatObject : PyExpr → Bool
  | .obj fs => fs.all (fun p =>
      match p.2 with
      | .num _ => true
      | .str _ => true
      | .null => true
      | _ => false)
  | _ => false

/-- Modelled from the spec: the strict structured-data decoder's acceptance
condition — the extracted literal must be a well-formed array of flat
objects; anything else must be rejected rather than evaluated. -/
def isArrayOfObjects : PyExpr → Bool
  | .arr es => es.all isFlatObject
  | _ => false

/-- A decoded trace event: a Python dict with string keys, as one element of
the evaluated `traceEvents` array. -/
abbrev PyDict := List (String × PyVal)

/-- Python `event.get(k)` / `event[k]`: the value at the first matching key,
if any. -/
def getField (event : PyDict) (k : String) : Option PyVal :=
  (event.find? (fun p => p.1 == k)).map (·.2)

/-- Python `v == s` for a string literal `s` applied to an optional field
value: true exactly when the field is present and is that string
(`None == s` and `number == s` are `False` in Python). -/
def valIsStr (v : Option PyVal) (s : String) : Bool :=
  match v with
  | some (.str t) => t == s
  | _ => false

/-- The fate of one event in the normalization loop of
`parse_systrace_html`: dropped, routed to the CPU-load series, or routed to
the frame series (timestamps/durations already converted to milliseconds). -/
inductive NormResult where
  | dropped
  | sched (ts_ms dur_ms : ℚ)
  | frame (ts_ms dur_ms : ℚ)
deriving DecidableEq

/-- One iteration of the loop `for event in events` in
`parse_systrace_html`: events missing `ts` or `dur` are skipped
(`continue`); otherwise `ts` and `dur` are divided by 1000 (microseconds to
milliseconds) and the event is routed on `cat`/`name`.  A present but
non-numeric `ts` or `dur` makes the Python division raise (an uncaught
`TypeError` aborting the whole pass), modelled as `none`. -/
def normalize_event (event : PyDict) : Option NormResult :=
  match getField event "ts", getField event "dur" with
  | some (.num ts), some (.num dur) =>
    let timestamp := ts / 1000
    let duration := dur / 1000
    if valIsStr (getField event "cat") "load" then
      some (.sched timestamp duration)
    else if (valIsStr (getField event "cat") "gfx"
        || valIsStr (getField event "cat") "view")
        && valIsStr (getField event "name") "Frame" then
      some (.frame timestamp duration)
    else
      some .dropped
  | some _, some _ => none
  | _, _ => some .dropped

/-- The whole normalization loop: builds the `cpu_load` and `frame_times`
lists in event order; `none` when any iteration raises. -/
def normalizeEvents : List PyDict → Option (List (ℚ × ℚ) × List (ℚ × ℚ))
  | [] => some ([], [])
  | e :: rest =>
    match normalize_event e with
    | none => none
    | some r =>
      (normalizeEvents rest).map (fun (cl, ft) =>
        match r with
        | .dropped => (cl, ft)
        | .sched t d => ((t, d) :: cl, ft)
        | .frame t d => (cl, (t, d) :: ft))

/-- View a Python value as a dict, as the loop's `'ts' not in event` /
`event['ts']` subscripting expects. -/
def asDict : PyVal → Option PyDict
  | .dict fs => some fs
  | _ => none

def asDictListAux : List PyVal → Option (List PyDict)
  | [] => some []
  | v :: vs =>
    match asDict v, asDictListAux vs with
    | some d, some ds => some (d :: ds)
    | _, _ => none

/-- View the `eval` result as a list of dict events.  A non-list result or a
non-dict element makes the loop's membership test / subscripting raise an
uncaught `TypeError`, aborting the pass; modelled as `none`. -/
def asDictList : PyVal → Option (List PyDict)
  | .list vs => asDictListAux vs
  | _ => none

/-- Drop the leading occurrence of `marker`, if the list starts with it. -/
def chopMarker : List Char → List Char → Option (List Char)
  | [], s => some s
  | _ :: _, [] => none
  | m :: ms, c :: cs => if c = m then chopMarker ms cs else none

/-- The suffix after the first occurrence of `marker`, if it occurs. -/
def afterFirst (marker : List Char) : List Char → Option (List Char)
  | [] => chopMarker marker []
  | c :: cs =>
    match chopMarker marker (c :: cs) with
    | some rest => some rest
    | none => afterFirst marker cs

/-- The prefix before the first occurrence of `marker`, if it occurs. -/
def beforeFirst (marker : List Char) : List Char → Option (List Char)
  | [] =>
    match chopMarker marker [] with
    | some _ => some []
    | none => none
  | c :: cs =>
    match chopMarker marker (c :: cs) with
    | some _ => some []
    | none => (beforeFirst marker cs).map (c :: ·)

/-- Model of `re.search(r'var traceEvents = (\[.*?\]);', text, re.DOTALL)`:
the captured group is the `[`, then the shortest (non-greedy) run of
characters up to the next `];`, then the `]`.  (The model tries only the
first occurrence of the `var traceEvents = [` marker.) -/
def extractLiteral (text : List Char) : Option (List Char) :=
  (afterFirst ("var traceEvents = [".toList) text).bind (fun rest =>
    (beforeFirst ("];".toList) rest).map (fun content =>
      '[' :: (content ++ [']'])))

/-- The embedded-script capture as `parse_systrace_html` probes it:
whether the HTML file exists, and the text of the `<script>` tag containing
`var traceEvents` if `soup.find` locates one. -/
structure Capture where
  fileExists : Bool
  script : Option (List Char)

/-- The failure stages of `parse_systrace_html`.  The first three are the
source's three print-and-return-`(None, None)` paths; the last two are
uncaught exceptions (`SyntaxError` from `eval` on unparsable text,
`TypeError` from the loop on non-dict events or non-numeric fields), which
likewise abort the pass with no result. -/
inductive MalformedCapture where
  | fileMissing
  | markerAbsent
  | literalUnmatched
  | literalUndecodable
  | badEventShape
deriving DecidableEq

/-- `parse_systrace_html`, with Python's source-text parsing of the
extracted literal abstracted as `parseExpr` and the runtime behaviour of any
code the literal invokes abstracted as `env`.  On success it returns the
`(cpu_load, frame_times)` lists; every failure identifies its stage. -/
def parse_systrace_html (env : String → List PyVal → PyVal)
    (parseExpr : List Char → Option PyExpr) (c : Capture) :
    Except MalformedCapture (List (ℚ × ℚ) × List (ℚ × ℚ)) :=
  if !c.fileExists then .error .fileMissing
  else
    match c.script with
    | none => .error .markerAbsent
    | some txt =>
      match extractLiteral txt with
      | none => .error .literalUnmatched
      | some lit =>
        match parseExpr lit with
        | none => .error .literalUndecodable
        | some e =>
          match asDictList (pyEval env e) with
          | none => .error .badEventShape
          | some events =>
            match normalizeEvents events with
            | none => .error .badEventShape
            | some r => .ok r

/-- `FRAME_THRESHOLD = 16.6` (ms per frame at 60 FPS), the module-level
render-budget constant of both source files. -/
def FRAME_THRESHOLD : ℚ := 83 / 5

/-- `analyze_jank` of `src/systrace_analysis.py`:
`[(ts, dur) for ts, dur in frame_times if dur > FRAME_THRESHOLD]`, with the
module constant taken as the `threshold` argument. -/
def analyze_jank (threshold : ℚ) (frame_times : List (ℚ × ℚ)) : List (ℚ × ℚ) :=
  frame_times.filter (fun p => threshold < p.2)

/-- The analysis portion of `main` in `src/systrace_analysis.py`: parse,
return early (no report) when parsing failed, otherwise analyze jank.  The
result triple is `(cpu_load, frame_times, jank_frames)`. -/
def main_report (env : String → List PyVal → PyVal)
    (parseExpr : List Char → Option PyExpr) (c : Capture) :
    Option (List (ℚ × ℚ) × List (ℚ × ℚ) × List (ℚ × ℚ)) :=
  match parse_systrace_html env parseExpr c with
  | .error _ => none
  | .ok (cpu_load, frame_times) =>
    some (cpu_load, frame_times, analyze_jank FRAME_THRESHOLD frame_times)

end Systrace

namespace Perfetto

/-- One row of the scheduling relation queried by `parse_trace` in
`src/trace_analysis.py` (`ts`/`dur` in nanoseconds, restricted by the query
to `dur > 0`). -/
structure SchedRow where
  ts : ℚ
  dur : ℚ
  cpu : ℕ
  process_name : String
  thread_name : String
  state : String
deriving DecidableEq

/-- The per-CPU value stored by `analyze_cpu_load`:
`{'time': ..., 'dur': ..., 'load': ...}` — the millisecond timestamp and
duration series and the utilization percentage.  `load = none` models the
non-finite value Python produces when the division's denominator is zero. -/
structure CpuLoadEntry where
  time : List ℚ
  dur : List ℚ
  load : Option ℚ
deriving DecidableEq

/-- Python float division, which never yields a finite number for a zero
denominator (plain floats raise `ZeroDivisionError`; numpy values give
`inf`/`nan`): modelled as `none` on a zero denominator. -/
def pyDiv (a b : ℚ) : Option ℚ :=
  if b = 0 then none else some (a / b)

/-- `.min()` of a pandas series, used only on nonempty series (the `[]` case
is arbitrary). -/
def minQ : List ℚ → ℚ
  | [] => 0
  | x :: xs => xs.foldl min x

/-- `.max()` of a pandas series, used only on nonempty series. -/
def maxQ : List ℚ → ℚ
  | [] => 0
  | x :: xs => xs.foldl max x

def uniqueFirstAux (seen : List ℕ) : List ℕ → List ℕ
  | [] => []
  | x :: xs =>
    if x ∈ seen then uniqueFirstAux seen xs
    else x :: uniqueFirstAux (x :: seen) xs

/-- `pandas.Series.unique`: the distinct values in order of first
appearance — the iteration order of `for cpu in sched_df['cpu'].unique()`. -/
def uniqueFirst (l : List ℕ) : List ℕ :=
  uniqueFirstAux [] l

/-- `sched_df[sched_df['cpu'] == cpu]`: the rows of one core, in original
order. -/
def cpuEvents (rows : List SchedRow) (cpu : ℕ) : List SchedRow :=
  rows.filter (fun r => r.cpu == cpu)

/-- The body of the per-CPU loop of `analyze_cpu_load`: millisecond series
(`ts/1e6`, `dur/1e6`, nanoseconds to milliseconds), total duration, the
core's own min/max-timestamp window, and
`active_time = total_time / (end_time - start_time) * 100`. -/
def cpuEntry (rows : List SchedRow) (cpu : ℕ) : CpuLoadEntry :=
  let evs := cpuEvents rows cpu
  let time := evs.map (fun r => r.ts / 1000000)
  let dur := evs.map (fun r => r.dur / 1000000)
  let total_time := dur.sum
  let start_time := minQ time
  let end_time := maxQ time
  { time := time
    dur := dur
    load := (pyDiv total_time (end_time - start_time)).map (· * 100) }

/-- `analyze_cpu_load` of `src/trace_analysis.py` (value part): `None` when
the input relation is absent/empty, otherwise the `cpu_load` dict in
key-insertion order. -/
def analyze_cpu_load (rows : List SchedRow) : Option (List (ℕ × CpuLoadEntry)) :=
  if rows.isEmpty then none
  else some ((uniqueFirst (rows.map (·.cpu))).map (fun cpu => (cpu, cpuEntry rows cpu)))

/-- The scheduling dataframe as an object with identity: its rows plus
whether the `ts_ms`/`dur_ms` columns have been added to it in place. -/
structure SchedDF where
  rows : List SchedRow
  hasMsCols : Bool
deriving DecidableEq

/-- `analyze_cpu_load` with its in-place effect on the input dataframe made
explicit: the first component is the post-call state of the argument
(`sched_df['ts_ms'] = ...` adds columns before the per-CPU loop), the second
the returned value, which `analyze_cpu_load` above computes. -/
def analyze_cpu_load_df (df : SchedDF) : SchedDF × Option (List (ℕ × CpuLoadEntry)) :=
  if df.rows.isEmpty then (df, none)
  else ({ rows := df.rows, hasMsCols := true }, analyze_cpu_load df.rows)

/-- The frame dataframe as an object with identity: `(ts, dur)` rows in
nanoseconds, plus whether the `ts_ms`/`dur_ms` columns have been added. -/
structure FrameDF where
  rows : List (ℚ × ℚ)
  hasMsCols : Bool
deriving DecidableEq

/-- `analyze_jank` of `src/trace_analysis.py`, with the module constant
`FRAME_THRESHOLD` taken as the `threshold` argument.  The first component is
the post-call state of the input dataframe; the second is the returned pair
— `None` (for `(None, None)`) on an absent/empty input, otherwise the frame
dataframe itself (the very object that was passed in and mutated) together
with the jank subset `frame_df[frame_df['dur_ms'] > FRAME_THRESHOLD]`. -/
def analyze_jank (threshold : ℚ) (df : FrameDF) :
    FrameDF × Option (FrameDF × List (ℚ × ℚ)) :=
  if df.rows.isEmpty then (df, none)
  else
    let df' : FrameDF := { rows := df.rows, hasMsCols := true }
    (df', some (df', df.rows.filter (fun p => threshold < p.2 / 1000000)))

end Perfetto

/-- Sample scheduling relation: the spec's three-event concrete scenario —
`(ts=0,dur=5)`, `(ts=5,dur=5)`, `(ts=20,dur=10)` in milliseconds — given here
in the nanoseconds the structured-trace relation carries, all on cpu 0. -/
def sampleSched : List Perfetto.SchedRow :=
  [⟨0, 5000000, 0, "app", "ui", "R"⟩,
   ⟨5000000, 5000000, 0, "app", "ui", "R"⟩,
   ⟨20000000, 10000000, 0, "app", "ui", "R"⟩]

/-- Sample scheduling relation whose two events share one timestamp. -/
def sampleSameTs : List Perfetto.SchedRow :=
  [⟨7000000, 1000000, 0, "app", "ui", "R"⟩,
   ⟨7000000, 2000000, 0, "app", "ui", "R"⟩]

/-- Sample decoded trace event with a `load` category (`ts`/`dur` in
microseconds). -/
def sampleLoadEvent : Systrace.PyDict :=
  [("ts", .num 1000), ("dur", .num 500), ("cat", .str "load")]

/-- Sample decoded trace event: a `load` event whose extra `cpu` field is 3. -/
def evCpu3 : Systrace.PyDict :=
  [("ts", .num 2000), ("dur", .num 1000), ("cat", .str "load"), ("cpu", .num 3)]

/-- Sample decoded trace event: as `evCpu3` but with `cpu` field 7. -/
def evCpu7 : Systrace.PyDict :=
  [("ts", .num 2000), ("dur", .num 1000), ("cat", .str "load"), ("cpu", .num 7)]

/-- An embedded-script capture whose single trace event carries cpu id 3. -/
def cpuCapture3 : Systrace.Capture :=
  { fileExists := true, script := some ("var traceEvents = [cpu3event];".toList) }

/-- An embedded-script capture identical to `cpuCapture3` except that its
single trace event carries cpu id 7. -/
def cpuCapture7 : Systrace.Capture :=
  { fileExists := true, script := some ("var traceEvents = [cpu7event];".toList) }

/-- Python's parse of `cpuCapture3`'s extracted literal: a well-formed array
of one flat object with `ts`/`dur`/`cat` and the extra field `cpu = 3`. -/
def cpuLiteral3 : List Char → Option Systrace.PyExpr := fun _ =>
  some (.arr [.obj [("ts", .num 2000), ("dur", .num 1000),
    ("cat", .str "load"), ("cpu", .num 3)]])

/-- Python's parse of `cpuCapture7`'s extracted literal: as `cpuLiteral3`
but with `cpu = 7`. -/
def cpuLiteral7 : List Char → Option Systrace.PyExpr := fun _ =>
  some (.arr [.obj [("ts", .num 2000), ("dur", .num 1000),
    ("cat", .str "load"), ("cpu", .num 7)]])

namespace Aux

theorem foldl_min_le (l : List ℚ) : ∀ a : ℚ, l.foldl min a ≤ a := by
  induction l with
  | nil => intro a; simp
  | cons b bs ih =>
    intro a
    exact le_trans (ih (min a b)) (min_le_left a b)

theorem foldl_min_le_of_mem (l : List ℚ) :
    ∀ a x : ℚ, x ∈ l → l.foldl min a ≤ x := by
  induction l with
  | nil => intro a x hx; cases hx
  | cons b bs ih =>
    intro a x hx
    rcases List.mem_cons.mp hx with h | h
    · subst h
      exact le_trans (foldl_min_le bs (min a x)) (min_le_right a x)
    · exact ih (min a b) x h

theorem le_foldl_max (l : List ℚ) : ∀ a : ℚ, a ≤ l.foldl max a := by
  induction l with
  | nil => intro a; simp
  | cons b bs ih =>
    intro a
    exact le_trans (le_max_left a b) (ih (max a b))

theorem le_foldl_max_of_mem (l : List ℚ) :
    ∀ a x : ℚ, x ∈ l → x ≤ l.foldl max a := by
  induction l with
  | nil => intro a x hx; cases hx
  | cons b bs ih =>
    intro a x hx
    rcases List.mem_cons.mp hx with h | h
    · subst h
      exact le_trans (le_max_right a x) (le_foldl_max bs (max a x))
    · exact ih (max a b) x h

theorem minQ_le_of_mem {l : List ℚ} {x : ℚ} (hx : x ∈ l) :
    Perfetto.minQ l ≤ x := by
  cases l with
  | nil => cases hx
  | cons y ys =>
    rcases List.mem_cons.mp hx with h | h
    · subst h
      exact foldl_min_le ys x
    · exact foldl_min_le_of_mem ys y x h

theorem le_maxQ_of_mem {l : List ℚ} {x : ℚ} (hx : x ∈ l) :
    x ≤ Perfetto.maxQ l := by
  cases l with
  | nil => cases hx
  | cons y ys =>
    rcases List.mem_cons.mp hx with h | h
    · subst h
      exact le_foldl_max ys x
    · exact le_foldl_max_of_mem ys y x h

theorem minQ_lt_maxQ_of_ne {l : List ℚ} {a b : ℚ} (ha : a ∈ l) (hb : b ∈ l)
    (hab : a ≠ b) : Perfetto.minQ l < Perfetto.maxQ l := by
  rcases lt_trichotomy a b with h | h | h
  · exact lt_of_le_of_lt (minQ_le_of_mem ha) (lt_of_lt_of_le h (le_maxQ_of_mem hb))
  · exact absurd h hab
  · exact lt_of_le_of_lt (minQ_le_of_mem hb) (lt_of_lt_of_le h (le_maxQ_of_mem ha))

theorem foldl_min_const (l : List ℚ) :
    ∀ a : ℚ, (∀ x ∈ l, x = a) → l.foldl min a = a := by
  induction l with
  | nil => intro a _; rfl
  | cons b bs ih =>
    intro a h
    have hb : b = a := h b (List.mem_cons_self b bs)
    subst hb
    have : min b b = b := min_self b
    simpa [this] using ih b (fun x hx => h x (List.mem_cons_of_mem b hx))

theorem foldl_max_const (l : List ℚ) :
    ∀ a : ℚ, (∀ x ∈ l, x = a) → l.foldl max a = a := by
  induction l with
  | nil => intro a _; rfl
  | cons b bs ih =>
    intro a h
    have hb : b = a := h b (List.mem_cons_self b bs)
    subst hb
    have : max b b = b := max_self b
    simpa [this] using ih b (fun x hx => h x (List.mem_cons_of_mem b hx))

theorem minQ_const {l : List ℚ} {a : ℚ} (hne : l ≠ []) (h : ∀ x ∈ l, x = a) :
    Perfetto.minQ l = a := by
  cases l with
  | nil => exact absurd rfl hne
  | cons y ys =>
    have hy : y = a := h y (List.mem_cons_self y ys)
    subst hy
    exact foldl_min_const ys y (fun x hx => h x (List.mem_cons_of_mem y hx))

theorem maxQ_const {l : List ℚ} {a : ℚ} (hne : l ≠ []) (h : ∀ x ∈ l, x = a) :
    Perfetto.maxQ l = a := by
  cases l with
  | nil => exact absurd rfl hne
  | cons y ys =>
    have hy : y = a := h y (List.mem_cons_self y ys)
    subst hy
    exact foldl_max_const ys y (fun x hx => h x (List.mem_cons_of_mem y hx))

theorem mem_uniqueFirstAux (l : List ℕ) :
    ∀ (seen : List ℕ) (x : ℕ),
      x ∈ Perfetto.uniqueFirstAux seen l ↔ x ∈ l ∧ x ∉ seen := by
  induction l with
  | nil => intro seen x; simp [Perfetto.uniqueFirstAux]
  | cons y ys ih =>
    intro seen x
    simp only [Perfetto.uniqueFirstAux]
    by_cases hy : y ∈ seen
    · simp only [if_pos hy, ih, List.mem_cons]
      constructor
      · rintro ⟨hmem, hseen⟩
        exact ⟨Or.inr hmem, hseen⟩
      · rintro ⟨hor, hseen⟩
        rcases hor with heq | hmem
        · subst heq; exact absurd hy hseen
        · exact ⟨hmem, hseen⟩
    · simp only [if_neg hy, List.mem_cons, ih, List.mem_cons]
      constructor
      · rintro (heq | ⟨hmem, hnot⟩)
        · subst heq
          exact ⟨Or.inl rfl, hy⟩
        · exact ⟨Or.inr hmem, fun hs => hnot (Or.inr hs)⟩
      · rintro ⟨hor, hseen⟩
        rcases hor with heq | hmem
        · exact Or.inl heq
        · by_cases hxy : x = y
          · exact Or.inl hxy
          · refine Or.inr ⟨hmem, fun hs => ?_⟩
            rcases hs with h1 | h2
            · exact hxy h1
            · exact hseen h2

theorem mem_uniqueFirst {l : List ℕ} {x : ℕ} :
    x ∈ Perfetto.uniqueFirst l ↔ x ∈ l := by
  simpa [Perfetto.uniqueFirst] using mem_uniqueFirstAux l [] x

theorem lookup_map_graph {α : Type} (g : ℕ → α) :
    ∀ (us : List ℕ) (c : ℕ) (e : α),
      (us.map (fun u => (u, g u))).lookup c = some e → e = g c := by
  intro us
  induction us with
  | nil => intro c e h; simp [List.lookup] at h
  | cons u rest ih =>
    intro c e h
    by_cases hc : c = u
    · subst hc
      simp [List.lookup] at h
      exact h.symm
    · have hbeq : (c == u) = false := by
        simpa using hc
      simp [List.lookup, hbeq] at h
      exact ih c e h

theorem analyze_cpu_load_inv {rows : List Perfetto.SchedRow}
    {m : List (ℕ × Perfetto.CpuLoadEntry)}
    (hm : Perfetto.analyze_cpu_load rows = some m) :
    rows.isEmpty = false ∧
      m = (Perfetto.uniqueFirst (rows.map (·.cpu))).map
        (fun cpu => (cpu, Perfetto.cpuEntry rows cpu)) := by
  by_cases he : rows.isEmpty
  · simp [Perfetto.analyze_cpu_load, he] at hm
  · simp only [Perfetto.analyze_cpu_load, Bool.not_eq_true] at hm he
    rw [if_neg (by simp [he])] at hm
    exact ⟨by simpa using he, (Option.some.inj hm).symm⟩

theorem analyze_cpu_load_lookup {rows : List Perfetto.SchedRow}
    {m : List (ℕ × Perfetto.CpuLoadEntry)} {c : ℕ} {e : Perfetto.CpuLoadEntry}
    (hm : Perfetto.analyze_cpu_load rows = some m)
    (he : m.lookup c = some e) : e = Perfetto.cpuEntry rows c := by
  obtain ⟨-, hm2⟩ := analyze_cpu_load_inv hm
  subst hm2
  exact lookup_map_graph _ _ c e he

theorem valIsStr_unique {v : Option Systrace.PyVal} {s t : String}
    (hs : Systrace.valIsStr v s = true) (hne : s ≠ t) :
    Systrace.valIsStr v t = false := by
  match v with
  | none => simp [Systrace.valIsStr] at hs
  | some (.null) => simp [Systrace.valIsStr] at hs
  | some (.num _) => simp [Systrace.valIsStr] at hs
  | some (.list _) => simp [Systrace.valIsStr] at hs
  | some (.dict _) => simp [Systrace.valIsStr] at hs
  | some (.str u) =>
    have hu : u = s := by simpa [Systrace.valIsStr] using hs
    subst hu
    simpa [Systrace.valIsStr] using hne

end Aux

/-- Claim C1: the spec requires the embedded-script TraceSource to decode
the extracted array-of-objects literal as structured data, rejecting any
literal that is not a well-formed array of objects, and never to execute it
as code.  The code violates this: `parse_systrace_html` runs
`events = eval(match.group(1))` (its own comment conceding `json.loads`
would be the safe choice), so a literal such as `[os_system()]` — which is
not an array of objects and which the strict decoder must reject — is
executed as code and accepted by the parse. -/
theorem eval_decodes_by_executing_code :
    Systrace.isArrayOfObjects (.arr [.call "os_system" [.str "reboot"]]) = false
    ∧ Systrace.executesCode (.arr [.call "os_system" [.str "reboot"]]) = true
    ∧ Systrace.parse_systrace_html (fun _ _ => Systrace.PyVal.dict [])
        (fun _ => some (.arr [.call "os_system" [.str "reboot"]]))
        { fileExists := true,
          script := some ("var traceEvents = [os_system()];".toList) } =
      Except.ok ([], []) :=
  ⟨rfl, rfl, rfl⟩

/-- Claim C3: the spec requires a core with fewer than two scheduling events
to get `utilization_pct = 0` and an empty time series, with no division by
zero.  The code instead reaches the division with a zero-width window and
keeps the singleton series: for a single event on cpu 0 the entry has the
event in its series and an undefined (`none`, non-finite in Python)
utilization, not zero and empty. -/
theorem single_event_core_divides_by_zero :
    Perfetto.analyze_cpu_load [⟨5000000, 3000000, 0, "app", "ui", "R"⟩] =
      some [(0, { time := [5], dur := [3], load := none })] := by
  simp [Perfetto.analyze_cpu_load, Perfetto.uniqueFirst, Perfetto.uniqueFirstAux,
    Perfetto.cpuEntry, Perfetto.cpuEvents, Perfetto.minQ, Perfetto.maxQ, Perfetto.pyDiv]
  norm_num

/-- Claim C5 (counterexample): the claim says an event-free capture yields
an empty `cpu_load` mapping and an empty `JankResult`, not a null/absent
result; but `analyze_cpu_load` returns `None` (not an empty mapping) and
`analyze_jank` returns `(None, None)` on empty inputs. -/
theorem empty_capture_counterexample :
    Perfetto.analyze_cpu_load ([] : List Perfetto.SchedRow) ≠ some []
    ∧ (Perfetto.analyze_jank Systrace.FRAME_THRESHOLD
        { rows := [], hasMsCols := false }).2 = none := by
  constructor
  · simp [Perfetto.analyze_cpu_load]
  · rfl

/-- Claim C5 (amended): for a capture with zero scheduling and zero frame
events the analysis functions succeed without error but return `None`
(absent results, which `main` then skips) rather than empty mappings and
series; the empty frame dataframe is not even mutated. -/
theorem empty_capture_returns_none (rows : List Perfetto.SchedRow)
    (df : Perfetto.FrameDF) (th : ℚ) (h1 : rows = []) (h2 : df.rows = []) :
    Perfetto.analyze_cpu_load rows = none
    ∧ (Perfetto.analyze_jank th df).2 = none
    ∧ (Perfetto.analyze_jank th df).1 = df := by
  subst h1
  refine ⟨rfl, ?_, ?_⟩ <;> simp [Perfetto.analyze_jank, h2]

theorem empty_capture_returns_none_witness :
    (([] : List Perfetto.SchedRow) = [])
    ∧ Perfetto.analyze_cpu_load ([] : List Perfetto.SchedRow) = none
    ∧ (Perfetto.analyze_jank 10 { rows := [], hasMsCols := false }).2 = none
    ∧ (Perfetto.analyze_jank 10 { rows := [], hasMsCols := false }).1 =
        { rows := [], hasMsCols := false } := by
  have h := empty_capture_returns_none [] { rows := [], hasMsCols := false } 10 rfl rfl
  exact ⟨rfl, h.1, h.2.1, h.2.2⟩

/-- Claim C8 (counterexample): the claim says that for every valid capture,
in either variant, the key set of the per-core utilization mapping equals
the set of distinct `cpu_id`s among its scheduling events.  It fails in
both variants.  Structured-trace variant: the event-free capture is valid
(its distinct-`cpu_id` set is empty) yet the code produces no mapping at
all (`None`), so no mapping's key set can witness the equality.
Embedded-script variant: two valid captures whose single well-formed trace
events carry the distinct cpu-id sets `{3}` and `{7}` parse to *identical*
outputs — a flat `(ts_ms, dur_ms) = (2000/1000, 1000/1000)` pair list with
no per-core keying whatsoever — so the same output would need key set
`{3}` and `{7}` at once; in fact no per-core mapping is produced there at
all. -/
theorem cpu_load_keys_counterexample :
    Perfetto.analyze_cpu_load ([] : List Perfetto.SchedRow) = none
    ∧ Systrace.parse_systrace_html (fun _ _ => Systrace.PyVal.null)
        cpuLiteral3 cpuCapture3 =
      Systrace.parse_systrace_html (fun _ _ => Systrace.PyVal.null)
        cpuLiteral7 cpuCapture7
    ∧ Systrace.parse_systrace_html (fun _ _ => Systrace.PyVal.null)
        cpuLiteral3 cpuCapture3 =
      Except.ok ([((2000 : ℚ) / 1000, (1000 : ℚ) / 1000)], []) :=
  ⟨rfl, rfl, rfl⟩

/-- Claim C8 (amended): in the structured-trace variant, whenever
`analyze_cpu_load` does produce a mapping (i.e. the capture has at least
one scheduling event), its key set equals exactly the set of distinct
`cpu_id` values among the scheduling events, while a capture with no
scheduling events yields `None` instead of an empty mapping; in the
embedded-script variant the claimed equality fails outright, because the
normalizer's per-event output depends only on the `ts`, `dur`, `cat` and
`name` fields — never on a `cpu` field — so the emitted flat pair list
carries no per-core information and no `cpu_id`-keyed mapping exists
(together with the counterexample's two concrete captures, whose distinct
cpu-id sets differ while their outputs coincide). -/
theorem cpu_load_keys_exact :
    (∀ (rows : List Perfetto.SchedRow) (m : List (ℕ × Perfetto.CpuLoadEntry)),
      Perfetto.analyze_cpu_load rows = some m →
      ∀ c : ℕ, c ∈ m.map Prod.fst ↔ c ∈ rows.map (·.cpu))
    ∧ (∀ e1 e2 : Systrace.PyDict,
        Systrace.getField e1 "ts" = Systrace.getField e2 "ts" →
        Systrace.getField e1 "dur" = Systrace.getField e2 "dur" →
        Systrace.getField e1 "cat" = Systrace.getField e2 "cat" →
        Systrace.getField e1 "name" = Systrace.getField e2 "name" →
        Systrace.normalize_event e1 = Systrace.normalize_event e2) := by
  constructor
  · intro rows m hm c
    obtain ⟨-, hm2⟩ := Aux.analyze_cpu_load_inv hm
    subst hm2
    rw [List.map_map]
    have hcomp : (Prod.fst ∘ fun cpu => (cpu, Perfetto.cpuEntry rows cpu)) =
        fun cpu => cpu := rfl
    rw [hcomp, List.map_id']
    exact Aux.mem_uniqueFirst
  · intro e1 e2 h1 h2 h3 h4
    unfold Systrace.normalize_event
    rw [h1, h2, h3, h4]

theorem cpu_load_keys_exact_witness :
    Perfetto.analyze_cpu_load [⟨0, 5000000, 3, "app", "ui", "R"⟩] =
      some [(3, Perfetto.cpuEntry [⟨0, 5000000, 3, "app", "ui", "R"⟩] 3)]
    ∧ (3 ∈ [(3, Perfetto.cpuEntry [⟨0, 5000000, 3, "app", "ui", "R"⟩] 3)].map Prod.fst ↔
        3 ∈ ([⟨0, 5000000, 3, "app", "ui", "R"⟩] : List Perfetto.SchedRow).map (·.cpu))
    ∧ Systrace.getField evCpu3 "ts" = Systrace.getField evCpu7 "ts"
    ∧ Systrace.getField evCpu3 "cat" = Systrace.getField evCpu7 "cat"
    ∧ Systrace.normalize_event evCpu3 = Systrace.normalize_event evCpu7 := by
  have h1 : Perfetto.analyze_cpu_load [⟨0, 5000000, 3, "app", "ui", "R"⟩] =
      some [(3, Perfetto.cpuEntry [⟨0, 5000000, 3, "app", "ui", "R"⟩] 3)] := by
    simp [Perfetto.analyze_cpu_load, Perfetto.uniqueFirst, Perfetto.uniqueFirstAux]
  exact ⟨h1, cpu_load_keys_exact.1 _ _ h1 3, rfl, rfl,
    cpu_load_keys_exact.2 evCpu3 evCpu7 rfl rfl rfl rfl⟩

/-- Claim C9 (counterexample): the claim says the analysis operations do not
mutate their inputs and share no mutable state with them; but both
`analyze_jank` and `analyze_cpu_load` add `ts_ms`/`dur_ms` columns to their
input dataframes in place, so the post-call state of a nonempty input
differs from its pre-call state. -/
theorem analysis_mutates_input_counterexample :
    (Perfetto.analyze_jank Systrace.FRAME_THRESHOLD
        { rows := [(0, 20000000)], hasMsCols := false }).1 ≠
      { rows := [(0, 20000000)], hasMsCols := false }
    ∧ (Perfetto.analyze_cpu_load_df
        { rows := [⟨0, 5000000, 0, "app", "ui", "R"⟩], hasMsCols := false }).1 ≠
      { rows := [⟨0, 5000000, 0, "app", "ui", "R"⟩], hasMsCols := false } := by
  constructor <;> simp [Perfetto.analyze_jank, Perfetto.analyze_cpu_load_df]

/-- Claim C9 (amended): on a nonempty input both analysis functions mutate
their argument in place — exactly by adding the millisecond columns, the
rows being preserved — and `analyze_jank`'s returned frame series is the
very mutated input dataframe (shared state), while the numeric results are
fresh values. -/
theorem analysis_mutation_characterized (th : ℚ) (df : Perfetto.FrameDF)
    (sdf : Perfetto.SchedDF) (h1 : df.rows ≠ []) (h2 : sdf.rows ≠ []) :
    (Perfetto.analyze_jank th df).1 = { rows := df.rows, hasMsCols := true }
    ∧ (Perfetto.analyze_jank th df).2 =
        some ((Perfetto.analyze_jank th df).1,
          df.rows.filter (fun p => th < p.2 / 1000000))
    ∧ (Perfetto.analyze_cpu_load_df sdf).1 = { rows := sdf.rows, hasMsCols := true }
    ∧ (Perfetto.analyze_cpu_load_df sdf).2 = Perfetto.analyze_cpu_load sdf.rows := by
  have hd : df.rows.isEmpty = false := by
    simpa [List.isEmpty_iff] using h1
  have hs : sdf.rows.isEmpty = false := by
    simpa [List.isEmpty_iff] using h2
  refine ⟨?_, ?_, ?_, ?_⟩ <;>
    simp [Perfetto.analyze_jank, Perfetto.analyze_cpu_load_df, hd, hs]

theorem analysis_mutation_characterized_witness :
    ([(0, 20000000)] : List (ℚ × ℚ)) ≠ []
    ∧ ([⟨0, 5000000, 0, "app", "ui", "R"⟩] : List Perfetto.SchedRow) ≠ []
    ∧ (Perfetto.analyze_jank 10 { rows := [(0, 20000000)], hasMsCols := false }).1 =
        { rows := [(0, 20000000)], hasMsCols := true }
    ∧ (Perfetto.analyze_cpu_load_df
        { rows := [⟨0, 5000000, 0, "app", "ui", "R"⟩], hasMsCols := false }).1 =
      { rows := [⟨0, 5000000, 0, "app", "ui", "R"⟩], hasMsCols := true } := by
  have h := analysis_mutation_characterized 10
    { rows := [(0, 20000000)], hasMsCols := false }
    { rows := [⟨0, 5000000, 0, "app", "ui", "R"⟩], hasMsCols := false }
    (by simp) (by simp)
  exact ⟨by simp, by simp, h.1, h.2.2.1⟩

/-- Claim C4: in both variants the jank subset is exactly the frames whose
duration strictly exceeds the budget (a frame at exactly the budget is not
jank), and on the spec's concrete scenario — frames `(0,10)`, `(16,20)`,
`(40,15)` with budget 16.6 — only `(16,20)` is flagged. -/
theorem jank_subset_strict_threshold :
    (∀ (budget : ℚ) (frames : List (ℚ × ℚ)) (f : ℚ × ℚ),
        f ∈ Systrace.analyze_jank budget frames ↔ f ∈ frames ∧ budget < f.2)
    ∧ (∀ (budget : ℚ) (df : Perfetto.FrameDF) (f : ℚ × ℚ),
        (∃ pr, (Perfetto.analyze_jank budget df).2 = some pr ∧ f ∈ pr.2) ↔
          f ∈ df.rows ∧ budget < f.2 / 1000000)
    ∧ Systrace.analyze_jank (83 / 5) [(0, 10), (16, 20), (40, 15)] = [(16, 20)] := by
  refine ⟨?_, ?_, ?_⟩
  · intro budget frames f
    simp [Systrace.analyze_jank, List.mem_filter]
  · intro budget df f
    by_cases hd : df.rows.isEmpty
    · have hnil : df.rows = [] := by simpa [List.isEmpty_iff] using hd
      simp [Perfetto.analyze_jank, hd, hnil]
    · simp [Perfetto.analyze_jank, hd, List.mem_filter]
  · norm_num [Systrace.analyze_jank, List.filter]

/-- Claim C2: for every core with at least two scheduling events of unequal
timestamps (exhibited by two events `r`, `r'` of that core with different
`ts`), the utilization stored for that core equals
`sum(duration_ms) / (max(timestamp_ms) - min(timestamp_ms)) * 100`, the
min/max ranging over that core's own events. -/
theorem cpu_utilization_formula (rows : List Perfetto.SchedRow) (cpu : ℕ)
    (m : List (ℕ × Perfetto.CpuLoadEntry)) (entry : Perfetto.CpuLoadEntry)
    (r r' : Perfetto.SchedRow)
    (hm : Perfetto.analyze_cpu_load rows = some m)
    (he : m.lookup cpu = some entry)
    (hr : r ∈ Perfetto.cpuEvents rows cpu)
    (hr' : r' ∈ Perfetto.cpuEvents rows cpu)
    (hne : r.ts ≠ r'.ts) :
    entry.load = some
      ((((Perfetto.cpuEvents rows cpu).map (fun e => e.dur / 1000000)).sum /
        (Perfetto.maxQ ((Perfetto.cpuEvents rows cpu).map (fun e => e.ts / 1000000)) -
          Perfetto.minQ ((Perfetto.cpuEvents rows cpu).map (fun e => e.ts / 1000000)))) *
        100) := by
  have hent := Aux.analyze_cpu_load_lookup hm he
  subst hent
  have hmsne : (r.ts / 1000000 : ℚ) ≠ r'.ts / 1000000 := by
    intro h
    apply hne
    field_simp at h
    exact h
  have hmem1 : (r.ts / 1000000 : ℚ) ∈
      (Perfetto.cpuEvents rows cpu).map (fun e => e.ts / 1000000) :=
    List.mem_map_of_mem _ hr
  have hmem2 : (r'.ts / 1000000 : ℚ) ∈
      (Perfetto.cpuEvents rows cpu).map (fun e => e.ts / 1000000) :=
    List.mem_map_of_mem _ hr'
  have hlt := Aux.minQ_lt_maxQ_of_ne hmem1 hmem2 hmsne
  have hsub :
      Perfetto.maxQ ((Perfetto.cpuEvents rows cpu).map (fun e => e.ts / 1000000)) -
        Perfetto.minQ ((Perfetto.cpuEvents rows cpu).map (fun e => e.ts / 1000000)) ≠ 0 :=
    sub_ne_zero_of_ne (ne_of_gt hlt)
  simp only [Perfetto.cpuEntry]
  simp [Perfetto.pyDiv, hsub]

theorem cpu_utilization_formula_witness :
    Perfetto.analyze_cpu_load sampleSched = some [(0, Perfetto.cpuEntry sampleSched 0)]
    ∧ [(0, Perfetto.cpuEntry sampleSched 0)].lookup 0 =
        some (Perfetto.cpuEntry sampleSched 0)
    ∧ (⟨0, 5000000, 0, "app", "ui", "R"⟩ : Perfetto.SchedRow) ∈
        Perfetto.cpuEvents sampleSched 0
    ∧ (⟨20000000, 10000000, 0, "app", "ui", "R"⟩ : Perfetto.SchedRow) ∈
        Perfetto.cpuEvents sampleSched 0
    ∧ (⟨0, 5000000, 0, "app", "ui", "R"⟩ : Perfetto.SchedRow).ts ≠
        (⟨20000000, 10000000, 0, "app", "ui", "R"⟩ : Perfetto.SchedRow).ts
    ∧ (Perfetto.cpuEntry sampleSched 0).load = some 100 := by
  have h1 : Perfetto.analyze_cpu_load sampleSched =
      some [(0, Perfetto.cpuEntry sampleSched 0)] := by
    simp [sampleSched, Perfetto.analyze_cpu_load, Perfetto.uniqueFirst,
      Perfetto.uniqueFirstAux]
  have h2 : [(0, Perfetto.cpuEntry sampleSched 0)].lookup 0 =
      some (Perfetto.cpuEntry sampleSched 0) := by
    simp [List.lookup]
  have h3 : (⟨0, 5000000, 0, "app", "ui", "R"⟩ : Perfetto.SchedRow) ∈
      Perfetto.cpuEvents sampleSched 0 := by
    simp [sampleSched, Perfetto.cpuEvents]
  have h4 : (⟨20000000, 10000000, 0, "app", "ui", "R"⟩ : Perfetto.SchedRow) ∈
      Perfetto.cpuEvents sampleSched 0 := by
    simp [sampleSched, Perfetto.cpuEvents]
  have h5 : (⟨0, 5000000, 0, "app", "ui", "R"⟩ : Perfetto.SchedRow).ts ≠
      (⟨20000000, 10000000, 0, "app", "ui", "R"⟩ : Perfetto.SchedRow).ts := by
    norm_num
  have hform := cpu_utilization_formula sampleSched 0 _ _ _ _ h1 h2 h3 h4 h5
  refine ⟨h1, h2, h3, h4, h5, ?_⟩
  rw [hform]
  norm_num [sampleSched, Perfetto.cpuEvents, Perfetto.minQ, Perfetto.maxQ, List.filter]

/-- Claim C10: for a core whose scheduling events all share one timestamp
(and number at least two), the per-core observation window is zero wide and
`analyze_cpu_load` still reaches the division with that zero denominator —
the division is unguarded, so the stored utilization is the undefined value
(`none`; a non-finite float in Python), not a number. -/
theorem zero_width_window_unguarded (rows : List Perfetto.SchedRow) (cpu : ℕ)
    (m : List (ℕ × Perfetto.CpuLoadEntry)) (entry : Perfetto.CpuLoadEntry) (t0 : ℚ)
    (hm : Perfetto.analyze_cpu_load rows = some m)
    (he : m.lookup cpu = some entry)
    (hlen : 2 ≤ (Perfetto.cpuEvents rows cpu).length)
    (hts : ∀ r ∈ Perfetto.cpuEvents rows cpu, r.ts = t0) :
    Perfetto.maxQ ((Perfetto.cpuEvents rows cpu).map (fun e => e.ts / 1000000)) -
      Perfetto.minQ ((Perfetto.cpuEvents rows cpu).map (fun e => e.ts / 1000000)) = 0
    ∧ entry.load = none := by
  have hent := Aux.analyze_cpu_load_lookup hm he
  subst hent
  have hne : Perfetto.cpuEvents rows cpu ≠ [] := by
    intro h
    rw [h] at hlen
    simp at hlen
  have hmapne : (Perfetto.cpuEvents rows cpu).map (fun e => e.ts / 1000000) ≠ [] := by
    simpa using hne
  have hconst : ∀ x ∈ (Perfetto.cpuEvents rows cpu).map (fun e => e.ts / 1000000),
      x = t0 / 1000000 := by
    intro x hx
    rcases List.mem_map.mp hx with ⟨r, hrmem, hrx⟩
    rw [← hrx, hts r hrmem]
  have hmin := Aux.minQ_const hmapne hconst
  have hmax := Aux.maxQ_const hmapne hconst
  have hzero :
      Perfetto.maxQ ((Perfetto.cpuEvents rows cpu).map (fun e => e.ts / 1000000)) -
        Perfetto.minQ ((Perfetto.cpuEvents rows cpu).map (fun e => e.ts / 1000000)) = 0 := by
    rw [hmin, hmax, sub_self]
  refine ⟨hzero, ?_⟩
  simp only [Perfetto.cpuEntry]
  rw [hzero]
  simp [Perfetto.pyDiv]

theorem zero_width_window_unguarded_witness :
    Perfetto.analyze_cpu_load sampleSameTs =
      some [(0, Perfetto.cpuEntry sampleSameTs 0)]
    ∧ [(0, Perfetto.cpuEntry sampleSameTs 0)].lookup 0 =
        some (Perfetto.cpuEntry sampleSameTs 0)
    ∧ 2 ≤ (Perfetto.cpuEvents sampleSameTs 0).length
    ∧ (∀ r ∈ Perfetto.cpuEvents sampleSameTs 0, r.ts = 7000000)
    ∧ (Perfetto.cpuEntry sampleSameTs 0).load = none := by
  have h1 : Perfetto.analyze_cpu_load sampleSameTs =
      some [(0, Perfetto.cpuEntry sampleSameTs 0)] := by
    simp [sampleSameTs, Perfetto.analyze_cpu_load, Perfetto.uniqueFirst,
      Perfetto.uniqueFirstAux]
  have h2 : [(0, Perfetto.cpuEntry sampleSameTs 0)].lookup 0 =
      some (Perfetto.cpuEntry sampleSameTs 0) := by
    simp [List.lookup]
  have h3 : 2 ≤ (Perfetto.cpuEvents sampleSameTs 0).length := by
    simp [sampleSameTs, Perfetto.cpuEvents]
  have h4 : ∀ r ∈ Perfetto.cpuEvents sampleSameTs 0, r.ts = 7000000 := by
    intro r hr
    simp [sampleSameTs, Perfetto.cpuEvents] at hr
    rcases hr with h | h <;> simp [h]
  have h := zero_width_window_unguarded sampleSameTs 0 _ _ 7000000 h1 h2 h3 h4
  exact ⟨h1, h2, h3, h4, h.2⟩

/-- Claim C6: the normalizer's per-event behaviour — an event lacking `ts`
or `dur` is dropped; otherwise, in the embedded-script variant, `ts` and
`dur` are divided by 1000 (microseconds to milliseconds) and the event is
routed to the scheduling series when its category is `load`, to the frame
series when its category is `gfx` or `view` and its name is exactly
`Frame`, and dropped otherwise; in the structured-trace variant the
scheduling and frame rows are divided by 1e6 (nanoseconds to
milliseconds). -/
theorem normalizer_routing (event : Systrace.PyDict) :
    ((Systrace.getField event "ts" = none ∨ Systrace.getField event "dur" = none) →
      Systrace.normalize_event event = some .dropped)
    ∧ (∀ ts dur : ℚ,
        Systrace.getField event "ts" = some (.num ts) →
        Systrace.getField event "dur" = some (.num dur) →
        (Systrace.valIsStr (Systrace.getField event "cat") "load" = true →
          Systrace.normalize_event event = some (.sched (ts / 1000) (dur / 1000)))
        ∧ ((Systrace.valIsStr (Systrace.getField event "cat") "gfx" = true ∨
            Systrace.valIsStr (Systrace.getField event "cat") "view" = true) →
          Systrace.valIsStr (Systrace.getField event "name") "Frame" = true →
          Systrace.normalize_event event = some (.frame (ts / 1000) (dur / 1000)))
        ∧ (Systrace.valIsStr (Systrace.getField event "cat") "load" = false →
          ((Systrace.valIsStr (Systrace.getField event "cat") "gfx" = false ∧
            Systrace.valIsStr (Systrace.getField event "cat") "view" = false) ∨
            Systrace.valIsStr (Systrace.getField event "name") "Frame" = false) →
          Systrace.normalize_event event = some .dropped))
    ∧ (∀ (th : ℚ) (df : Perfetto.FrameDF) (pr : Perfetto.FrameDF × List (ℚ × ℚ)),
        (Perfetto.analyze_jank th df).2 = some pr →
          pr.2 = df.rows.filter (fun p => th < p.2 / 1000000))
    ∧ (∀ (rows : List Perfetto.SchedRow) (m : List (ℕ × Perfetto.CpuLoadEntry))
        (c : ℕ) (e : Perfetto.CpuLoadEntry),
        Perfetto.analyze_cpu_load rows = some m → m.lookup c = some e →
          e.time = (Perfetto.cpuEvents rows c).map (fun r => r.ts / 1000000) ∧
          e.dur = (Perfetto.cpuEvents rows c).map (fun r => r.dur / 1000000)) := by
  refine ⟨?_, ?_, ?_, ?_⟩
  · rintro (h | h)
    · simp [Systrace.normalize_event, h]
    · cases ht : Systrace.getField event "ts" with
      | none => simp [Systrace.normalize_event, ht, h]
      | some v => cases v <;> simp [Systrace.normalize_event, ht, h]
  · intro ts dur hts hdur
    refine ⟨?_, ?_, ?_⟩
    · intro hload
      simp [Systrace.normalize_event, hts, hdur, hload]
    · intro hgv hname
      have hload : Systrace.valIsStr (Systrace.getField event "cat") "load" = false := by
        rcases hgv with h | h
        · exact Aux.valIsStr_unique h (by decide)
        · exact Aux.valIsStr_unique h (by decide)
      have hor : (Systrace.valIsStr (Systrace.getField event "cat") "gfx" ||
          Systrace.valIsStr (Systrace.getField event "cat") "view") = true := by
        rcases hgv with h | h <;> simp [h]
      simp [Systrace.normalize_event, hts, hdur, hload, hor, hname]
    · intro hload hother
      have hcond : ((Systrace.valIsStr (Systrace.getField event "cat") "gfx" ||
          Systrace.valIsStr (Systrace.getField event "cat") "view") &&
          Systrace.valIsStr (Systrace.getField event "name") "Frame") = false := by
        rcases hother with ⟨hg, hv⟩ | hn
        · simp [hg, hv]
        · simp [hn]
      simp [Systrace.normalize_event, hts, hdur, hload, hcond]
  · intro th df pr hpr
    by_cases hd : df.rows.isEmpty
    · simp [Perfetto.analyze_jank, hd] at hpr
    · simp [Perfetto.analyze_jank, hd] at hpr
      rw [← hpr]
  · intro rows m c e hm he
    have hent := Aux.analyze_cpu_load_lookup hm he
    subst hent
    exact ⟨rfl, rfl⟩

theorem normalizer_routing_witness :
    Systrace.getField sampleLoadEvent "ts" = some (.num 1000)
    ∧ Systrace.getField sampleLoadEvent "dur" = some (.num 500)
    ∧ Systrace.valIsStr (Systrace.getField sampleLoadEvent "cat") "load" = true
    ∧ Systrace.normalize_event sampleLoadEvent = some (.sched 1 (1 / 2)) := by
  have h1 : Systrace.getField sampleLoadEvent "ts" = some (.num 1000) := by rfl
  have h2 : Systrace.getField sampleLoadEvent "dur" = some (.num 500) := by rfl
  have h3 : Systrace.valIsStr (Systrace.getField sampleLoadEvent "cat") "load" = true := by
    rfl
  have h4 := ((normalizer_routing sampleLoadEvent).2.1 1000 500 h1 h2).1 h3
  refine ⟨h1, h2, h3, ?_⟩
  rw [h4]
  norm_num

/-- Claim C7: when the embedded-script capture's data region cannot be
located or the array literal cannot be extracted or decoded,
`parse_systrace_html` fails with an error identifying the failing stage
(missing file, marker not found, regex unmatched, ...), and `main` then
produces no report at all — no partial utilization or jank figures. -/
theorem malformed_capture_aborts (env : String → List Systrace.PyVal → Systrace.PyVal)
    (parseExpr : List Char → Option Systrace.PyExpr) (c : Systrace.Capture) :
    (∀ err, Systrace.parse_systrace_html env parseExpr c = .error err →
      Systrace.main_report env parseExpr c = none)
    ∧ (c.fileExists = false →
      Systrace.parse_systrace_html env parseExpr c = .error .fileMissing)
    ∧ (c.fileExists = true → c.script = none →
      Systrace.parse_systrace_html env parseExpr c = .error .markerAbsent)
    ∧ (∀ txt, c.fileExists = true → c.script = some txt →
      Systrace.extractLiteral txt = none →
      Systrace.parse_systrace_html env parseExpr c = .error .literalUnmatched) := by
  refine ⟨?_, ?_, ?_, ?_⟩
  · intro err h
    simp [Systrace.main_report, h]
  · intro hf
    simp [Systrace.parse_systrace_html, hf]
  · intro hf hs
    simp [Systrace.parse_systrace_html, hf, hs]
  · intro txt hf hs hx
    simp [Systrace.parse_systrace_html, hf, hs, hx]

theorem malformed_capture_aborts_witness :
    Systrace.parse_systrace_html (fun _ _ => Systrace.PyVal.null) (fun _ => none)
        { fileExists := true, script := none } = .error .markerAbsent
    ∧ Systrace.main_report (fun _ _ => Systrace.PyVal.null) (fun _ => none)
        { fileExists := true, script := none } = none := by
  have h := malformed_capture_aborts (fun _ _ => Systrace.PyVal.null) (fun _ => none)
    { fileExists := true, script := none }
  have h2 := h.2.2.1 rfl rfl
  exact ⟨h2, h.1 _ h2⟩
